import Mathlib

/-!
Verification of the EDMX-to-enhanced-OpenAPI conversion pipeline
(`edmx_to_enhanced_openapi.py`).

The development shallowly embeds the document-enhancement pipeline of the
converter: JSON documents are modelled by an inductive `Json` type, Python
dicts by ordered association lists (Python 3.7+ dicts preserve insertion
order and have unique keys), and each pipeline stage
(`_add_company_parameter`, `_remove_navigation_paths`,
`_remove_system_fields_from_mutation_schemas`, `_enforce_edmx_capabilities`,
`_remove_unused_schema_variants`) together with the metadata extractor
(`_parse_edmx_capabilities`) becomes a pure function over those structures.

Python string primitives (split, strip, replace, startswith, endswith,
substring membership, lower) are re-implemented over `List Char` so that all
definitions compute by kernel reduction.
-/

/-- A JSON value: the shape of the documents the converter manipulates.
Objects are ordered association lists, mirroring Python dicts. -/
inductive Json where
  | null
  | bool (b : Bool)
  | num (n : Int)
  | str (s : String)
  | arr (elems : List Json)
  | obj (fields : List (String × Json))
deriving Inhabited, Repr

/-! ### Ordered-dict operations (Python dict semantics on assoc lists) -/

/-- `d[k]` lookup: first binding of `k` (dicts have unique keys). -/
def dget {α : Type} (l : List (String × α)) (k : String) : Option α :=
  match l with
  | [] => none
  | (k', v) :: rest => if k' = k then some v else dget rest k

/-- `d[k] = v`: overwrite in place if the key exists, else append (Python
dict assignment preserves insertion order). -/
def dset {α : Type} (l : List (String × α)) (k : String) (v : α) : List (String × α) :=
  match l with
  | [] => [(k, v)]
  | (k', v') :: rest => if k' = k then (k, v) :: rest else (k', v') :: dset rest k v

/-- `del d[k]`: remove the binding of `k` (unique in a dict, so filtering is
equivalent to deleting the single entry). -/
def ddel {α : Type} (l : List (String × α)) (k : String) : List (String × α) :=
  l.filter (fun kv => !(kv.1 == k))

/-! ### Python-style string primitives over `List Char` -/

/-- `pat.isPrefixOf l` as a plain Boolean recursion. -/
def listIsPrefixOf : List Char → List Char → Bool
  | [], _ => true
  | _ :: _, [] => false
  | a :: as, b :: bs => a = b && listIsPrefixOf as bs

/-- Python `s.startswith(pre)`. -/
def strStartsWith (s pre : String) : Bool :=
  listIsPrefixOf pre.data s.data

/-- Python `s.endswith(suf)`. -/
def strEndsWith (s suf : String) : Bool :=
  listIsPrefixOf suf.data.reverse s.data.reverse

/-- Is `pat` a contiguous substring of `l`?  (Python `pat in s`.) -/
def listIsInfixOf (pat : List Char) : List Char → Bool
  | [] => listIsPrefixOf pat []
  | c :: cs => listIsPrefixOf pat (c :: cs) || listIsInfixOf pat cs

/-- Python `pat in s` (substring containment). -/
def strContains (s pat : String) : Bool :=
  listIsInfixOf pat.data s.data

/-- Python `s.split(sep)` for a single-character separator: keeps empty
pieces, and splitting the empty string yields `[""]`. -/
def splitOnChar (c : Char) : List Char → List (List Char)
  | [] => [[]]
  | x :: xs =>
    let r := splitOnChar c xs
    if x = c then [] :: r
    else
      match r with
      | [] => [[x]]
      | h :: t => (x :: h) :: t

/-- Python `s.split(c)` returning strings. -/
def strSplitOnChar (c : Char) (s : String) : List String :=
  (splitOnChar c s.data).map (fun l => ⟨l⟩)

/-- Python `s.lstrip(c)` for a single strip character. -/
def strLStrip (s : String) (c : Char) : String :=
  ⟨s.data.dropWhile (fun x => x = c)⟩

/-- Python `s.rstrip(c)` for a single strip character. -/
def strRStrip (s : String) (c : Char) : String :=
  ⟨(s.data.reverse.dropWhile (fun x => x = c)).reverse⟩

/-- Python `s.strip(c)` for a single strip character. -/
def strStrip (s : String) (c : Char) : String :=
  strRStrip (strLStrip s c) c

/-- Python `s[n:]` (drop the first `n` characters). -/
def strDrop (s : String) (n : Nat) : String :=
  ⟨s.data.drop n⟩

/-- Python `s[:-n]` (drop the last `n` characters). -/
def strDropRight (s : String) (n : Nat) : String :=
  ⟨s.data.take (s.data.length - n)⟩

/-- ASCII lower-casing of one character (the converter only lower-cases the
ASCII literals `"true"`/`"false"`/`"True"`/`"False"` read from metadata). -/
def lowerChar (c : Char) : Char :=
  if 'A' ≤ c ∧ c ≤ 'Z' then Char.ofNat (c.toNat + 32) else c

/-- Python `s.lower()` on ASCII data. -/
def asciiLower (s : String) : String :=
  ⟨s.data.map lowerChar⟩

/-- Left-to-right, non-overlapping replacement of `pat` by `rep`, fuelled by
the input length so the recursion is structural (`pat` is always a nonempty
literal at every call site, so the fuel never runs out before the input is
consumed). -/
def replaceAllAux (pat rep : List Char) : Nat → List Char → List Char
  | _, [] => []
  | 0, l => l
  | Nat.succ n, x :: xs =>
    if listIsPrefixOf pat (x :: xs) then
      rep ++ replaceAllAux pat rep n ((x :: xs).drop pat.length)
    else
      x :: replaceAllAux pat rep n xs

/-- Python `s.replace(pat, rep)` (all occurrences, left to right). -/
def strReplace (s pat rep : String) : String :=
  ⟨replaceAllAux pat.data rep.data s.data.length s.data⟩

/-- Python `s.rsplit('-', 1)[0]`: everything before the last `'-'`, or `s`
itself when there is none. -/
def beforeLastDash (s : String) : String :=
  if s.data.contains '-' then ⟨(((s.data.reverse).dropWhile (fun x => x ≠ '-')).drop 1).reverse⟩
  else s

/-! ### Data model: the OpenAPI document and the capability mappings -/

/-- A path item: the dict of HTTP-verb keys (`get`, `post`, `patch`,
`delete`, each a JSON operation body) plus the optional `parameters` entry. -/
abbrev PathDict := List (String × Json)

/-- The `components` section: `parameters` and `schemas` are present or
absent exactly as the corresponding dict keys are. -/
structure Components where
  parameters : Option (List (String × Json))
  schemas : Option (List (String × Json))
deriving Inhabited, Repr

/-- The slice of the OpenAPI document the capability-aware pipeline reads and
writes: the `paths` dict (absent when the document lacks a `paths` key) and
the `components` section.  The static sections (`info`, `servers`,
`security`, `securitySchemes`) are wholesale value substitutions that no
claim touches. -/
structure Spec where
  paths : Option (List (String × PathDict))
  components : Components
deriving Inhabited, Repr

/-- A capability record: `{'insertable': …, 'updatable': …, 'deletable': …}`,
all defaulting to `true` per the OData spec. -/
structure Capabilities where
  insertable : Bool
  updatable : Bool
  deletable : Bool
deriving Inhabited, Repr, DecidableEq

/-- All three flags `true` (the initial record per entity set). -/
def defaultCapabilities : Capabilities := ⟨true, true, true⟩

/-- The two mappings built by `_parse_edmx_capabilities`:
entity-set name → record, and entity-type name → record. -/
structure CapMaps where
  edmxCapabilities : List (String × Capabilities)
  entityTypeCapabilities : List (String × Capabilities)
deriving Inhabited, Repr, DecidableEq

/-! ### The EDMX metadata model and `_parse_edmx_capabilities` -/

/-- An `edm:PropertyValue` element: its `Property` attribute and optional
`Bool` attribute. -/
structure PropValue where
  property : String
  boolAttr : Option String
deriving Inhabited, Repr

/-- An `edm:Annotation` element: its optional `Term` attribute and its nested
property values. -/
structure EdmAnnot where
  term : Option String
  propValues : List PropValue
deriving Inhabited, Repr

/-- An `edm:EntitySet` element: `Name` and `EntityType` attributes (absent
attributes are `none`) and all nested annotation elements. -/
structure EntitySetElem where
  name : Option String
  entityType : Option String
  annots : List EdmAnnot
deriving Inhabited, Repr

/-- A parsed metadata document: its entity sets in document order. -/
structure EdmxDoc where
  entitySets : List EntitySetElem
deriving Inhabited, Repr

/-- `annotation.find('.//edm:PropertyValue[@Property=…]')`: the first nested
property value with the given `Property` attribute. -/
def findPropValue (a : EdmAnnot) (prop : String) : Option PropValue :=
  a.propValues.find? (fun pv => pv.property == prop)

/-- `annotation_prop.get('Bool', 'true').lower() == 'true'`: the flag value a
present property value contributes. -/
def boolFlagOf (pv : PropValue) : Bool :=
  asciiLower (pv.boolAttr.getD "true") == "true"

/-- One step of the annotation scan: an annotation whose `Term` contains
`InsertRestrictions` / `UpdateRestrictions` / `DeleteRestrictions` (tested in
that `if`/`elif` order) overrides the corresponding flag from its
`Insertable` / `Updatable` / `Deletable` property value, when present. -/
def processAnnot (caps : Capabilities) (a : EdmAnnot) : Capabilities :=
  let term := a.term.getD ""
  if strContains term "InsertRestrictions" then
    match findPropValue a "Insertable" with
    | some pv => { caps with insertable := boolFlagOf pv }
    | none => caps
  else if strContains term "UpdateRestrictions" then
    match findPropValue a "Updatable" with
    | some pv => { caps with updatable := boolFlagOf pv }
    | none => caps
  else if strContains term "DeleteRestrictions" then
    match findPropValue a "Deletable" with
    | some pv => { caps with deletable := boolFlagOf pv }
    | none => caps
  else caps

/-- The capability record of one entity set: initialize all-`true`, then scan
its annotations in document order. -/
def parseEntitySetCaps (es : EntitySetElem) : Capabilities :=
  es.annots.foldl processAnnot defaultCapabilities

/-- `entity_type.split('.')[-1] if '.' in entity_type else entity_type`: the
bare type name with any namespace stripped to the last segment. -/
def resolveTypeName (t : String) : String :=
  if strContains t "." then (strSplitOnChar '.' t).getLastD t else t

/-- Processing one `EntitySet` element: skipped when `Name` or `EntityType`
is absent or empty (Python falsiness), otherwise the record is stored under
both the set name and the resolved type name, overwriting earlier bindings. -/
def capMapsStep (maps : CapMaps) (es : EntitySetElem) : CapMaps :=
  match es.name, es.entityType with
  | some n, some t =>
    if n = "" ∨ t = "" then maps
    else
      ⟨dset maps.edmxCapabilities n (parseEntitySetCaps es),
       dset maps.entityTypeCapabilities (resolveTypeName t) (parseEntitySetCaps es)⟩
  | _, _ => maps

/-- `_parse_edmx_capabilities`: `none` models a metadata document that fails
to parse (`ET.parse` raises before any entity set is visited), in which case
both mappings stay empty and the warning flag (second component) is set;
otherwise the entity sets are folded in document order. -/
def parseEdmxCapabilities : Option EdmxDoc → CapMaps × Bool
  | none => (⟨[], []⟩, true)
  | some doc => (doc.entitySets.foldl capMapsStep ⟨[], []⟩, false)

/-! ### `_add_company_parameter` -/

/-- The shared `company` parameter definition installed under
`components.parameters`. -/
def companyParamJson : Json :=
  Json.obj
    [("in", Json.str "query"),
     ("name", Json.str "company"),
     ("description", Json.str "The company name to which the request is directed."),
     ("required", Json.bool true),
     ("schema", Json.obj [("type", Json.str "string"), ("maxLength", Json.num 100)])]

/-- The by-reference parameter appended to each non-excluded path. -/
def companyRefJson : Json :=
  Json.obj [("$ref", Json.str "#/components/parameters/company")]

/-- The exclusion list of `_add_company_parameter`: paths starting with any
of these prefixes are system endpoints and get no `company` parameter. -/
def paramSystemHeads : List String :=
  ["/$batch", "/apicategoryroutes", "/companies", "/entitydefinitions",
   "/externalbusinesseventdefinitions", "/externaleventsubscriptions",
   "/subscriptions", "/entityDefinitions"]

/-- `any(path_name.startswith(prefix) for prefix in …)` in
`_add_company_parameter`. -/
def isParamExcludedPath (p : String) : Bool :=
  paramSystemHeads.any (fun pre => strStartsWith p pre)

/-- Appending the `company` reference to one path item: create an empty
`parameters` list if the key is absent, then append the `$ref` object. -/
def addCompanyRefToItem (it : PathDict) : PathDict :=
  let it1 := if (dget it "parameters").isSome then it else dset it "parameters" (Json.arr [])
  match dget it1 "parameters" with
  | some (Json.arr xs) => dset it1 "parameters" (Json.arr (xs ++ [companyRefJson]))
  | _ => it1

/-- `_add_company_parameter`: install the shared definition under
`components.parameters` and append a reference to every path not matching
the exclusion prefixes.  When the document has no `paths` key the stage stops
after the components update. -/
def addCompanyParameter (s : Spec) : Spec :=
  let comps : Components :=
    { s.components with
      parameters := some (dset (s.components.parameters.getD []) "company" companyParamJson) }
  match s.paths with
  | none => { s with components := comps }
  | some ps =>
    { paths := some (ps.map (fun kv =>
        (kv.1, if isParamExcludedPath kv.1 then kv.2 else addCompanyRefToItem kv.2))),
      components := comps }

/-! ### `_remove_navigation_paths` -/

/-- The system-endpoint list of `_remove_navigation_paths` (matched by exact
name or name followed by `'('`); the two `companies` endpoints are
special-cased separately. -/
def navSystemHeads : List String :=
  ["/$batch", "/apicategoryroutes", "/entitydefinitions",
   "/externalbusinesseventdefinitions", "/externaleventsubscriptions",
   "/subscriptions", "/entityDefinitions"]

/-- The system-endpoint test of `_remove_navigation_paths`. -/
def isNavSystemEndpoint (p : String) : Bool :=
  navSystemHeads.any (fun pre => p == pre || strStartsWith p (pre ++ "(")) ||
    p == "/companies" || p == "/companies({id})"

/-- Does a segment look like a parenthesized key expression
(`second_level.startswith('(') and second_level.endswith(')')`)? -/
def parenWrapped (s : String) : Bool :=
  strStartsWith s "(" && strEndsWith s ")"

/-- The company-scoped levels of a path: the remainder after
`'/companies({id})/'` split on `'/'` with empty pieces removed. -/
def scopedLevels (p : String) : List String :=
  (strSplitOnChar '/' (strDrop p 17)).filter (fun l => !(l == ""))

/-- Is a path removed by `_remove_navigation_paths`?  System endpoints are
kept; company-scoped paths are removed when they have more than two levels,
or exactly two with a non-parenthesized second level; non-company paths are
judged the same way on their stripped segments (empties not removed there);
all other paths are kept. -/
def shouldRemovePath (p : String) : Bool :=
  if isNavSystemEndpoint p then false
  else if strStartsWith p "/companies({id})/" then
    let levels := scopedLevels p
    if levels.length > 2 then true
    else if levels.length = 2 then !(parenWrapped (levels.getD 1 ""))
    else false
  else if !(strStartsWith p "/companies") then
    let parts := strSplitOnChar '/' (strStrip p '/')
    if parts.length > 2 then true
    else if parts.length = 2 then !(parenWrapped (parts.getD 1 ""))
    else false
  else false

/-- `_remove_navigation_paths`: drop every path the rule above marks (the
rule depends on the path name alone, so collecting the names first and
deleting afterwards is the same as filtering). -/
def removeNavigationPaths (s : Spec) : Spec :=
  match s.paths with
  | none => s
  | some ps => { s with paths := some (ps.filter (fun kv => !(shouldRemovePath kv.1))) }

/-! ### `_remove_system_fields_from_mutation_schemas` -/

/-- The fixed system audit fields scrubbed from mutation schemas. -/
def systemFields : List String :=
  ["systemCreatedAt", "systemCreatedBy", "systemModifiedAt", "systemModifiedBy"]

/-- Scrub one schema entry: only `-create`/`-update` schemas whose body is an
object with a `properties` object are touched; the system fields are removed
from `properties`. -/
def scrubEntry (kv : String × Json) : String × Json :=
  if !(strEndsWith kv.1 "-create" || strEndsWith kv.1 "-update") then kv
  else
    match kv.2 with
    | Json.obj fields =>
      match dget fields "properties" with
      | some (Json.obj props) =>
        (kv.1, Json.obj (dset fields "properties"
          (Json.obj (props.filter (fun fk => !(systemFields.contains fk.1))))))
      | _ => kv
    | _ => kv

/-- `_remove_system_fields_from_mutation_schemas`: a no-op without a
`components.schemas` dict. -/
def removeSystemFieldsFromMutationSchemas (s : Spec) : Spec :=
  match s.components.schemas with
  | none => s
  | some sch =>
    { s with components := { s.components with schemas := some (sch.map scrubEntry) } }

/-! ### `_enforce_edmx_capabilities` and its resolvers -/

/-- Dict access on a JSON value (`obj[k]` after an `k in obj` check); the
converter only ever applies these accesses to well-formed documents in which
the traversed values are objects. -/
def jget (j : Json) (k : String) : Option Json :=
  match j with
  | Json.obj kvs => dget kvs k
  | _ => none

/-- `_extract_entity_set_from_path`: strip leading slashes; for
company-scoped paths take the second `/`-segment, otherwise the first; cut
the segment at `'('` when present.  Returns `none` exactly where Python
returns `None` (a `companies(`-path with a single segment). -/
def extractEntitySetFromPath (path : String) : Option String :=
  let pc := strLStrip path '/'
  if strStartsWith pc "companies(" then
    let parts := strSplitOnChar '/' pc
    if parts.length ≥ 2 then
      let ep := parts.getD 1 ""
      some (if strContains ep "(" then (strSplitOnChar '(' ep).headD "" else ep)
    else none
  else
    let ep := (strSplitOnChar '/' pc).headD ""
    some (if strContains ep "(" then (strSplitOnChar '(' ep).headD "" else ep)

/-- `_extract_schema_ref_from_responses`: `responses['200']['content']
['application/json']['schema']['$ref']`, each step guarded by a membership
test; only a string reference is returned. -/
def extractSchemaRefFromResponses (resp : Json) : Option String :=
  match jget resp "200" with
  | some r200 =>
    match jget r200 "content" with
    | some content =>
      match jget content "application/json" with
      | some aj =>
        match jget aj "schema" with
        | some schema =>
          match jget schema "$ref" with
          | some (Json.str s) => some s
          | _ => none
        | none => none
      | none => none
    | none => none
  | none => none

/-- `_extract_schema_ref_from_request_body`:
`request_body['content']['application/json']['schema']['$ref']`. -/
def extractSchemaRefFromRequestBody (rb : Json) : Option String :=
  match jget rb "content" with
  | some content =>
    match jget content "application/json" with
    | some aj =>
      match jget aj "schema" with
      | some schema =>
        match jget schema "$ref" with
        | some (Json.str s) => some s
        | _ => none
      | none => none
    | none => none
  | none => none

/-- `_schema_ref_to_entity_type`: only `#/components/schemas/Microsoft.NAV.…`
references resolve; the schema-namespace and provider-namespace portions are
removed by Python `str.replace`, and a `-create`/`-update` suffix is cut at
the last dash. -/
def schemaRefToEntityType (ref : String) : Option String :=
  if !(strStartsWith ref "#/components/schemas/") then none
  else
    let schemaName := strReplace ref "#/components/schemas/" ""
    if strStartsWith schemaName "Microsoft.NAV." then
      let et0 := strReplace schemaName "Microsoft.NAV." ""
      some (if strEndsWith et0 "-create" || strEndsWith et0 "-update" then beforeLastDash et0 else et0)
    else none

/-- `_extract_entity_type_from_path_methods`: try the `get` response schema
first, then the `patch` request-body schema; an empty extracted name is
falsy in Python and falls through. -/
def extractEntityTypeFromPathMethods (it : PathDict) : Option String :=
  let fromGet : Option String :=
    match dget it "get" with
    | some g =>
      match jget g "responses" with
      | some resp =>
        match extractSchemaRefFromResponses resp with
        | some ref =>
          if ref = "" then none
          else
            match schemaRefToEntityType ref with
            | some et => if et = "" then none else some et
            | none => none
        | none => none
      | none => none
    | none => none
  match fromGet with
  | some et => some et
  | none =>
    match dget it "patch" with
    | some pa =>
      match jget pa "requestBody" with
      | some rb =>
        match extractSchemaRefFromRequestBody rb with
        | some ref =>
          if ref = "" then none
          else
            match schemaRefToEntityType ref with
            | some et => if et = "" then none else some et
            | none => none
        | none => none
      | none => none
    | none => none

/-- The path-segment fallback of `_enforce_edmx_capabilities`: the last
`/`-segment of the right-stripped path, cut at `'('`, looked up among the
known entity types. -/
def pathSegmentFallback (maps : CapMaps) (path : String) : Option Capabilities :=
  let segs := strSplitOnChar '/' (strRStrip path '/')
  let lastSeg := segs.getLastD ""
  let base := if strContains lastSeg "(" then (strSplitOnChar '(' lastSeg).headD "" else lastSeg
  dget maps.entityTypeCapabilities base

/-- `if name and name in mapping: mapping[name]` (Python truthiness: an
absent or empty name misses). -/
def truthyLookup (m : List (String × Capabilities)) : Option String → Option Capabilities
  | none => none
  | some n => if n = "" then none else dget m n

/-- The three-step resolution of `_enforce_edmx_capabilities`: direct entity-
set name, then schema-reference resolution, then the path-segment fallback. -/
def resolveCapabilities (maps : CapMaps) (path : String) (it : PathDict) : Option Capabilities :=
  match truthyLookup maps.edmxCapabilities (extractEntitySetFromPath path) with
  | some c => some c
  | none =>
    match truthyLookup maps.entityTypeCapabilities (extractEntityTypeFromPathMethods it) with
    | some c => some c
    | none => pathSegmentFallback maps path

/-- `not all(capabilities.values())`: at least one flag is `false`. -/
def capRestricted (c : Capabilities) : Bool :=
  !(c.insertable && c.updatable && c.deletable)

/-- The final override pass: scan the entity-type mapping in insertion order
and stop (`break`) at the first restricted type whose slash-prefixed name
`'/' + entity_type_name` occurs as a substring of the path; otherwise keep
the record the earlier steps resolved. -/
def overrideLoop (path : String) (cur : Option Capabilities) :
    List (String × Capabilities) → Option Capabilities
  | [] => cur
  | (t, c) :: rest =>
    if strContains path ("/" ++ t) && capRestricted c then some c
    else overrideLoop path cur rest

/-- Remove the operations a resolved record forbids: `post` when not
insertable, `patch` when not updatable, `delete` when not deletable (each
`del` is guarded by a membership test in Python; deleting an absent key is
the identity on the dict either way). -/
def applyCapabilities (c : Capabilities) (it : PathDict) : PathDict :=
  let it1 := if !c.insertable && (dget it "post").isSome then ddel it "post" else it
  let it2 := if !c.updatable && (dget it1 "patch").isSome then ddel it1 "patch" else it1
  if !c.deletable && (dget it2 "delete").isSome then ddel it2 "delete" else it2

/-- Enforcement of one path: three-step resolution, then the override pass,
then conditional operation removal (nothing happens when no record is
resolved). -/
def enforcePathItem (maps : CapMaps) (path : String) (it : PathDict) : PathDict :=
  match overrideLoop path (resolveCapabilities maps path it) maps.entityTypeCapabilities with
  | some c => applyCapabilities c it
  | none => it

/-- `_enforce_edmx_capabilities`: a no-op when the document has no `paths`
key or the entity-set capability mapping is empty. -/
def enforceEdmxCapabilities (maps : CapMaps) (s : Spec) : Spec :=
  match s.paths with
  | none => s
  | some ps =>
    if maps.edmxCapabilities.isEmpty then s
    else { s with paths := some (ps.map (fun kv => (kv.1, enforcePathItem maps kv.1 kv.2))) }

/-! ### `_remove_unused_schema_variants` -/

/-- A `$ref` value pointing into the schema namespace yields the schema
name; `value.replace('#/components/schemas/', '')` on a reference that
passes the `startswith` guard. -/
def schemaRefName (v : Json) : Option String :=
  match v with
  | Json.str s => if strStartsWith s "#/components/schemas/" then some (strReplace s "#/components/schemas/" "") else none
  | _ => none

mutual
/-- `extract_schema_refs`: recursively collect every `$ref` pointer into the
schema namespace from an operation body. -/
def extractSchemaRefs : Json → List String
  | Json.null => []
  | Json.bool _ => []
  | Json.num _ => []
  | Json.str _ => []
  | Json.arr xs => extractSchemaRefsArr xs
  | Json.obj kvs => extractSchemaRefsObj kvs

/-- The list case of `extract_schema_refs`. -/
def extractSchemaRefsArr : List Json → List String
  | [] => []
  | x :: xs => extractSchemaRefs x ++ extractSchemaRefsArr xs

/-- The dict case of `extract_schema_refs`: a qualifying `$ref` key
contributes its stripped value, every other value is recursed into. -/
def extractSchemaRefsObj : List (String × Json) → List String
  | [] => []
  | (k, v) :: kvs =>
    (match (if k = "$ref" then schemaRefName v else none) with
     | some n => [n]
     | none => extractSchemaRefs v) ++ extractSchemaRefsObj kvs
end

/-- All schema names referenced from the bodies of one HTTP method across
the whole path set (`schemas_used_by_post` / `schemas_used_by_patch`). -/
def schemasUsedByMethod (m : String) (ps : List (String × PathDict)) : List String :=
  ps.foldl (fun acc kv =>
    acc ++ (match dget kv.2 m with | some op => extractSchemaRefs op | none => [])) []

/-- The base entity name of a suffixed schema, as the unused-variant engine
computes it: `schema.replace(suffix, '')`, then the `Microsoft.NAV.` prefix
sliced off when present. -/
def navBase (suffix k : String) : String :=
  let b := strReplace k suffix ""
  if strStartsWith b "Microsoft.NAV." then strDrop b 14 else b

/-- Is a `-create` schema capability-restricted (its base entity type known
and not insertable)? -/
def capRestrictedCreateName (maps : CapMaps) (k : String) : Bool :=
  match dget maps.entityTypeCapabilities (navBase "-create" k) with
  | some c => !c.insertable
  | none => false

/-- Is a `-update` schema capability-restricted (its base entity type known
and not updatable)? -/
def capRestrictedUpdateName (maps : CapMaps) (k : String) : Bool :=
  match dget maps.entityTypeCapabilities (navBase "-update" k) with
  | some c => !c.updatable
  | none => false

/-- The force-removal condition of the second pass over all schema names:
`Microsoft.NAV.`-prefixed `-create`/`-update` names whose sliced base type
(`schema_name[14:-7]`) is known and restricted for the matching flag. -/
def forceRemoveCond (maps : CapMaps) (k : String) : Bool :=
  strStartsWith k "Microsoft.NAV." && (strEndsWith k "-create" || strEndsWith k "-update") &&
    (match dget maps.entityTypeCapabilities (strDropRight (strDrop k 14) 7) with
     | some c =>
       if strEndsWith k "-create" then !c.insertable
       else if strEndsWith k "-update" then !c.updatable
       else false
     | none => false)

/-- The full set of schema names `_remove_unused_schema_variants` deletes
(Python unions these lists into a set; only membership matters). -/
def schemasToRemove (maps : CapMaps) (ps : List (String × PathDict))
    (sch : List (String × Json)) : List String :=
  let usedPost := schemasUsedByMethod "post" ps
  let usedPatch := schemasUsedByMethod "patch" ps
  let allNames := sch.map (fun kv => kv.1)
  let createNames := allNames.filter (fun n => strEndsWith n "-create")
  let updateNames := allNames.filter (fun n => strEndsWith n "-update")
  createNames.filter (fun n => !(usedPost.contains n)) ++
    updateNames.filter (fun n => !(usedPatch.contains n)) ++
    createNames.filter (fun n => capRestrictedCreateName maps n) ++
    updateNames.filter (fun n => capRestrictedUpdateName maps n) ++
    allNames.filter (fun n => forceRemoveCond maps n)

/-- `_remove_unused_schema_variants`: a no-op without `paths` or
`components.schemas`; otherwise delete every name in the removal set. -/
def removeUnusedSchemaVariants (maps : CapMaps) (s : Spec) : Spec :=
  match s.paths, s.components.schemas with
  | some ps, some sch =>
    { s with components := { s.components with
        schemas := some (sch.filter (fun kv => !((schemasToRemove maps ps sch).contains kv.1))) } }
  | _, _ => s

/-! ### The pipeline -/

/-- The capability-aware portion of `_enhance_openapi_spec`, in source
order: parameter injection, navigation-path pruning, system-field
scrubbing, capability enforcement, unused-schema cleanup.  (The preceding
`info`/`servers`/`security`/`securitySchemes` substitutions touch neither
`paths` nor `components.parameters`/`components.schemas`.) -/
def enhanceOpenapiSpec (maps : CapMaps) (s : Spec) : Spec :=
  removeUnusedSchemaVariants maps
    (enforceEdmxCapabilities maps
      (removeSystemFieldsFromMutationSchemas
        (removeNavigationPaths
          (addCompanyParameter s))))

/-! ### Statement helpers -/

/-- Look one path up in a document (`none` when `paths` is absent or the
path is not there). -/
def lookupPath (s : Spec) (p : String) : Option PathDict :=
  match s.paths with
  | some ps => dget ps p
  | none => none

/-- Look one schema up in a document. -/
def schemaLookup (s : Spec) (k : String) : Option Json :=
  match s.components.schemas with
  | some sch => dget sch k
  | none => none

/-- Is a JSON value the by-reference `company` parameter? -/
def isCompanyRef (j : Json) : Bool :=
  match j with
  | Json.obj [(k, Json.str v)] => k == "$ref" && v == "#/components/parameters/company"
  | _ => false

/-- How many references to the shared `company` parameter a path item's
`parameters` array holds (0 when the key is absent or not an array). -/
def companyRefCount (it : PathDict) : Nat :=
  match dget it "parameters" with
  | some (Json.arr xs) => xs.countP isCompanyRef
  | _ => 0

/-- A path item whose `parameters` member, when present, is an array (every
document produced by the upstream converter satisfies this). -/
def paramsWF (it : PathDict) : Prop :=
  dget it "parameters" = none ∨ ∃ xs, dget it "parameters" = some (Json.arr xs)

/-- The system-endpoint allow-list exactly as claim C3 enumerates it. -/
def claimSystemHeads : List String :=
  ["/$batch", "/apicategoryroutes", "/companies", "/companies({id})",
   "/entitydefinitions", "/entityDefinitions", "/externalbusinesseventdefinitions",
   "/externaleventsubscriptions", "/subscriptions"]

/-- Prefix match against the claim's allow-list. -/
def claimSystemPath (p : String) : Bool :=
  claimSystemHeads.any (fun pre => strStartsWith p pre)

/-- The metadata of the C1 scenario: entity set `Items` of type
`Microsoft.NAV.Item` with `DeleteRestrictions` setting `Deletable=false`. -/
def itemsEdmxDoc : EdmxDoc :=
  ⟨[⟨some "Items", some "Microsoft.NAV.Item",
     [⟨some "Org.OData.Capabilities.V1.DeleteRestrictions",
       [⟨"Deletable", some "false"⟩]⟩]⟩]⟩

/-- The capability mappings extracted from the C1 metadata. -/
def itemsCapMaps : CapMaps := (parseEdmxCapabilities (some itemsEdmxDoc)).1

/-- The C1 base document: path `/companies({id})/Items({id})` with `get`,
`patch` and `delete` operations. -/
def itemsBaseSpec : Spec :=
  ⟨some [("/companies({id})/Items({id})",
          [("get", Json.obj []), ("patch", Json.obj []), ("delete", Json.obj [])])],
   ⟨none, none⟩⟩

/-- Well-formedness of a mutation-schema name: the removal engine's two base
computations (Python `replace`-based and slice-based) agree on it.  Every
conventionally named schema (`<ns>.<Type>-create` / `-update` with the
suffix occurring only at the end) satisfies this. -/
def wfVariantName (k : String) : Prop :=
  (strStartsWith k "Microsoft.NAV." = true → strEndsWith k "-create" = true →
    strDropRight (strDrop k 14) 7 = navBase "-create" k) ∧
  (strStartsWith k "Microsoft.NAV." = true → strEndsWith k "-update" = true →
    strDropRight (strDrop k 14) 7 = navBase "-update" k)

/-- The entity-type mapping of the C8/C9 witness scenario: type `widget` is
not insertable. -/
def widgetCapMaps : CapMaps :=
  ⟨[("widgets", ⟨false, true, true⟩)], [("widget", ⟨false, true, true⟩)]⟩

/-- A `post` operation whose request body references the `widget-create`
schema. -/
def widgetPostOp : Json :=
  Json.obj [("requestBody", Json.obj [("content", Json.obj
    [("application/json", Json.obj [("schema", Json.obj
      [("$ref", Json.str "#/components/schemas/Microsoft.NAV.widget-create")])])])])]

/-- The witness paths: one collection path with the referencing `post`. -/
def widgetPaths : List (String × PathDict) := [("/widgets", [("post", widgetPostOp)])]

/-- The witness schemas: the read schema and its `-create` variant. -/
def widgetSchemas : List (String × Json) :=
  [("Microsoft.NAV.widget", Json.obj []), ("Microsoft.NAV.widget-create", Json.obj [])]

/-- The witness document for the schema-pruning claims. -/
def widgetSpec : Spec := ⟨some widgetPaths, ⟨none, some widgetSchemas⟩⟩


/-! ### Dictionary lemmas -/

theorem dget_dset_self {α : Type} (l : List (String × α)) (k : String) (v : α) :
    dget (dset l k v) k = some v := by
  induction l with
  | nil => simp [dset, dget]
  | cons kv rest ih =>
    by_cases h : kv.1 = k
    · simp [dset, dget, h]
    · simp [dset, dget, h, ih]

theorem dget_dset_ne {α : Type} (l : List (String × α)) (k : String) (v : α)
    (k' : String) (h : ¬(k' = k)) : dget (dset l k v) k' = dget l k' := by
  have h2 : ¬(k = k') := fun e => h e.symm
  induction l with
  | nil => simp [dset, dget, h2]
  | cons kv rest ih =>
    by_cases hk : kv.1 = k
    · subst hk
      simp [dset, dget, h2, ih]
    · simp [dset, dget, hk, ih]

theorem dget_filterKey {α : Type} (l : List (String × α)) (q : String → Bool) (k : String) :
    dget (l.filter (fun kv => q kv.1)) k = if q k then dget l k else none := by
  induction l with
  | nil => simp [dget]
  | cons kv rest ih =>
    by_cases h : kv.1 = k
    · subst h
      cases hq : q kv.1 <;> simp [List.filter, hq, dget, ih]
    · cases hq : q kv.1 <;> simp [List.filter, hq, dget, h, ih]

theorem dget_ddel_ne {α : Type} (l : List (String × α)) (k k' : String) (h : ¬(k' = k)) :
    dget (ddel l k) k' = dget l k' := by
  have h2 := dget_filterKey l (fun x => !(x == k)) k'
  have h3 : (!(k' == k)) = true := by simp [h]
  rw [h3] at h2
  simpa using h2

theorem dget_mapVal {α β : Type} (l : List (String × α)) (f : String → α → β) (k : String) :
    dget (l.map (fun kv => (kv.1, f kv.1 kv.2))) k = (dget l k).map (f k) := by
  induction l with
  | nil => simp [dget]
  | cons kv rest ih =>
    by_cases h : kv.1 = k
    · subst h; simp [dget]
    · simp [dget, h, ih]

/-! ### Prefix lemmas -/

theorem listIsPrefixOf_iff (a b : List Char) : listIsPrefixOf a b = true ↔ a <+: b := by
  induction a generalizing b with
  | nil => simp [listIsPrefixOf]
  | cons x xs ih =>
    cases b with
    | nil => simp [listIsPrefixOf]
    | cons y ys => simp [listIsPrefixOf, List.cons_prefix_cons, ih]

theorem strData_append (a b : String) : (a ++ b).data = a.data ++ b.data := rfl

theorem listIsPrefixOf_append_self (a t : List Char) : listIsPrefixOf a (a ++ t) = true := by
  rw [listIsPrefixOf_iff]
  exact ⟨t, rfl⟩

theorem listIsPrefixOf_take_false (lit : List Char) :
    ∀ (pat x : List Char), listIsPrefixOf (pat.take lit.length) lit = false →
      listIsPrefixOf pat (lit ++ x) = false := by
  induction lit with
  | nil =>
    intro pat x h
    simp [listIsPrefixOf] at h
  | cons b bs ih =>
    intro pat x h
    cases pat with
    | nil => simp [listIsPrefixOf] at h
    | cons a as =>
      simp only [List.length_cons, List.take_succ_cons, listIsPrefixOf,
        Bool.and_eq_false_iff] at h
      rcases h with h | h
      · simp [listIsPrefixOf, h]
      · simp only [List.cons_append, listIsPrefixOf, Bool.and_eq_false_iff]
        exact Or.inr (ih as x h)

theorem beq_false_of_lit_not_prefixOf (p q : String) (lit x : List Char)
    (hp : p.data = lit ++ x) (h : listIsPrefixOf lit q.data = false) : (p == q) = false := by
  apply beq_eq_false_iff_ne.mpr
  intro he
  rw [he] at hp
  rw [hp, listIsPrefixOf_append_self] at h
  simp at h

theorem strStartsWith_trans (p a b : String) (h1 : strStartsWith p a = true)
    (h2 : strStartsWith a b = true) : strStartsWith p b = true := by
  unfold strStartsWith at h1 h2 ⊢
  rw [listIsPrefixOf_iff] at h1 h2 ⊢
  exact h2.trans h1

/-! ### Stage frame lemmas -/

theorem paths_removeSystemFields (s : Spec) :
    (removeSystemFieldsFromMutationSchemas s).paths = s.paths := by
  cases h : s.components.schemas <;> simp [removeSystemFieldsFromMutationSchemas, h]

theorem paths_removeUnused (maps : CapMaps) (s : Spec) :
    (removeUnusedSchemaVariants maps s).paths = s.paths := by
  cases hp : s.paths <;> cases hs : s.components.schemas <;>
    simp [removeUnusedSchemaVariants, hp, hs]

theorem lookupPath_addCompanyParameter (s : Spec) (p : String) :
    lookupPath (addCompanyParameter s) p =
      (lookupPath s p).map
        (fun it => if isParamExcludedPath p then it else addCompanyRefToItem it) := by
  cases hp : s.paths with
  | none => simp [lookupPath, addCompanyParameter, hp]
  | some ps =>
    simp only [lookupPath, addCompanyParameter, hp]
    exact dget_mapVal ps (fun q it => if isParamExcludedPath q then it else addCompanyRefToItem it) p

theorem lookupPath_removeNav (s : Spec) (p : String) :
    lookupPath (removeNavigationPaths s) p =
      if shouldRemovePath p then none else lookupPath s p := by
  cases hp : s.paths with
  | none => cases hr : shouldRemovePath p <;> simp [lookupPath, removeNavigationPaths, hp, hr]
  | some ps =>
    simp only [lookupPath, removeNavigationPaths, hp]
    have h2 := dget_filterKey ps (fun q => !(shouldRemovePath q)) p
    cases hr : shouldRemovePath p <;> rw [hr] at h2 <;> simpa using h2

theorem lookupPath_removeSysFields (s : Spec) (p : String) :
    lookupPath (removeSystemFieldsFromMutationSchemas s) p = lookupPath s p := by
  unfold lookupPath
  rw [paths_removeSystemFields]

theorem lookupPath_removeUnused (maps : CapMaps) (s : Spec) (p : String) :
    lookupPath (removeUnusedSchemaVariants maps s) p = lookupPath s p := by
  unfold lookupPath
  rw [paths_removeUnused]

theorem lookupPath_enforce (maps : CapMaps) (s : Spec) (p : String) :
    lookupPath (enforceEdmxCapabilities maps s) p =
      if maps.edmxCapabilities.isEmpty then lookupPath s p
      else (lookupPath s p).map (enforcePathItem maps p) := by
  cases hp : s.paths with
  | none =>
    cases he : maps.edmxCapabilities.isEmpty <;>
      simp [lookupPath, enforceEdmxCapabilities, hp, he]
  | some ps =>
    cases he : maps.edmxCapabilities.isEmpty with
    | true => simp [lookupPath, enforceEdmxCapabilities, hp, he]
    | false =>
      simp only [lookupPath, enforceEdmxCapabilities, hp, he, Bool.false_eq_true,
        if_false]
      exact dget_mapVal ps (fun q it => enforcePathItem maps q it) p

/-- The combined effect of the pipeline on one path lookup. -/
theorem lookupPath_enhance (maps : CapMaps) (s : Spec) (p : String) :
    lookupPath (enhanceOpenapiSpec maps s) p =
      if shouldRemovePath p then none
      else
        ((lookupPath s p).map
          (fun it => if isParamExcludedPath p then it else addCompanyRefToItem it)).map
          (fun it => if maps.edmxCapabilities.isEmpty then it else enforcePathItem maps p it) := by
  unfold enhanceOpenapiSpec
  rw [lookupPath_removeUnused, lookupPath_enforce, lookupPath_removeSysFields,
    lookupPath_removeNav, lookupPath_addCompanyParameter]
  cases hr : shouldRemovePath p <;> cases he : maps.edmxCapabilities.isEmpty <;>
    simp [hr, he, Function.comp]
  congr 1

/-! ### Company-parameter counting lemmas -/

theorem isCompanyRef_refJson : isCompanyRef companyRefJson = true := rfl

theorem companyRefCount_eq_of_params_eq {a b : PathDict}
    (h : dget a "parameters" = dget b "parameters") :
    companyRefCount a = companyRefCount b := by
  unfold companyRefCount
  rw [h]

theorem dget_params_condDdel {P : Prop} [Decidable P] (x : PathDict) (k : String)
    (h : ¬("parameters" = k)) :
    dget (if P then ddel x k else x) "parameters" = dget x "parameters" := by
  split_ifs with hp
  · exact dget_ddel_ne x k "parameters" h
  · rfl

theorem dget_params_applyCapabilities (c : Capabilities) (it : PathDict) :
    dget (applyCapabilities c it) "parameters" = dget it "parameters" := by
  unfold applyCapabilities
  rw [dget_params_condDdel _ _ (by decide), dget_params_condDdel _ _ (by decide),
    dget_params_condDdel _ _ (by decide)]

theorem dget_params_enforcePathItem (maps : CapMaps) (p : String) (it : PathDict) :
    dget (enforcePathItem maps p it) "parameters" = dget it "parameters" := by
  unfold enforcePathItem
  cases h : overrideLoop p (resolveCapabilities maps p it) maps.entityTypeCapabilities with
  | none => rfl
  | some c => exact dget_params_applyCapabilities c it

theorem companyRefCount_addRef (it : PathDict) (h : paramsWF it) :
    companyRefCount (addCompanyRefToItem it) = companyRefCount it + 1 := by
  rcases h with h | ⟨xs, h⟩
  · simp [addCompanyRefToItem, companyRefCount, h, dget_dset_self,
      List.countP_cons, isCompanyRef_refJson]
  · simp [addCompanyRefToItem, companyRefCount, h, dget_dset_self,
      List.countP_append, List.countP_cons, isCompanyRef_refJson]

theorem params_addRef_arr (it : PathDict) (h : paramsWF it) :
    ∃ xs, dget (addCompanyRefToItem it) "parameters" = some (Json.arr xs) := by
  rcases h with h | ⟨xs, h⟩
  · exact ⟨[companyRefJson], by simp [addCompanyRefToItem, h, dget_dset_self]⟩
  · exact ⟨xs ++ [companyRefJson], by simp [addCompanyRefToItem, h, dget_dset_self]⟩

/-- The claim's nine-entry allow-list and the code's eight-prefix exclusion
agree: the extra entry `/companies({id})` is already covered by the
`/companies` prefix. -/
theorem claimSystemPath_eq (p : String) : claimSystemPath p = isParamExcludedPath p := by
  unfold claimSystemPath isParamExcludedPath claimSystemHeads paramSystemHeads
  simp only [List.any_cons, List.any_nil, Bool.or_false]
  rw [Bool.eq_iff_iff]
  simp only [Bool.or_eq_true]
  cases hc : strStartsWith p "/companies"
  · have h16 : strStartsWith p "/companies({id})" = false := by
      cases h : strStartsWith p "/companies({id})"
      · rfl
      · exact absurd (strStartsWith_trans p "/companies({id})" "/companies" h (by decide))
          (by simp [hc])
    rw [h16]
    simp
    tauto
  · simp

/-! ### Concrete scenario data (claim C1) -/

/-- Claim C1, counterexample: on the stated scenario the enhanced output
keeps `/companies({id})/Items({id})` with `get` and `patch` and drops
`delete`, but no reference to the shared `company` parameter is added to the
path (its `parameters` count is 0): the path starts with `/companies`, which
is on the injection stage's exclusion list, so the claim's final conjunct
fails. -/
theorem c1_items_scenario_counterexample :
    lookupPath (enhanceOpenapiSpec itemsCapMaps itemsBaseSpec) "/companies({id})/Items({id})" =
        some [("get", Json.obj []), ("patch", Json.obj [])] ∧
      companyRefCount [("get", Json.obj []), ("patch", Json.obj [])] = 0 :=
  ⟨rfl, rfl⟩

/-- Claim C1, amended: in the C1 scenario the output contains the same path
with `delete` removed and `get`/`patch` retained, but no company-parameter
reference is added to the path (company-scoped paths match the `/companies`
exclusion prefix of the injection stage); the shared `company` parameter
definition is still installed under the document's reusable components. -/
theorem c1_items_scenario_amended :
    lookupPath (enhanceOpenapiSpec itemsCapMaps itemsBaseSpec) "/companies({id})/Items({id})" =
        some [("get", Json.obj []), ("patch", Json.obj [])] ∧
      dget [("get", Json.obj []), ("patch", Json.obj [])] "parameters" = none ∧
      (enhanceOpenapiSpec itemsCapMaps itemsBaseSpec).components.parameters =
        some [("company", companyParamJson)] :=
  ⟨rfl, rfl, rfl⟩

/-- Claim C2, counterexample: running the pipeline a second time on the
output of one run appends a second reference to the shared `company`
parameter to the non-system path `/items`, so the once-enhanced document is
not a fixed point. -/
theorem c2_second_run_counterexample :
    lookupPath
        (enhanceOpenapiSpec ⟨[], []⟩
          (enhanceOpenapiSpec ⟨[], []⟩ ⟨some [("/items", [])], ⟨none, none⟩⟩))
        "/items" =
      some [("parameters", Json.arr [companyRefJson, companyRefJson])] ∧
    lookupPath (enhanceOpenapiSpec ⟨[], []⟩ ⟨some [("/items", [])], ⟨none, none⟩⟩)
        "/items" =
      some [("parameters", Json.arr [companyRefJson])] :=
  ⟨rfl, rfl⟩

/-- Claim C2, amended: a second enhancement run is not the identity — it
appends exactly one additional reference to the shared `company` parameter
to each surviving non-system path (the injection appends unconditionally);
for a path surviving both runs, the second run's reference count exceeds the
first run's by one. -/
theorem c2_second_run_amended (maps : CapMaps) (s : Spec) (p : String)
    (it1 it2 : PathDict)
    (hwf : ∀ it, lookupPath s p = some it → paramsWF it)
    (h1 : lookupPath (enhanceOpenapiSpec maps s) p = some it1)
    (h2 : lookupPath (enhanceOpenapiSpec maps (enhanceOpenapiSpec maps s)) p = some it2)
    (hsys : isParamExcludedPath p = false) :
    companyRefCount it2 = companyRefCount it1 + 1 := by
  rw [lookupPath_enhance] at h2
  by_cases hr : shouldRemovePath p = true
  · rw [if_pos hr] at h2
    simp at h2
  · rw [if_neg hr] at h2
    rw [h1] at h2
    simp only [Option.map_some', hsys, Bool.false_eq_true, if_false] at h2
    have hwf1 : paramsWF it1 := by
      rw [lookupPath_enhance, if_neg hr] at h1
      cases hin : lookupPath s p with
      | none => rw [hin] at h1; simp at h1
      | some it0 =>
        rw [hin] at h1
        simp only [Option.map_some', hsys, Bool.false_eq_true, if_false] at h1
        obtain ⟨xs, hxs⟩ := params_addRef_arr it0 (hwf it0 hin)
        cases he : maps.edmxCapabilities.isEmpty <;> rw [he] at h1 <;> simp at h1
        · refine Or.inr ⟨xs, ?_⟩
          rw [← h1, dget_params_enforcePathItem, hxs]
        · refine Or.inr ⟨xs, ?_⟩
          rw [← h1, hxs]
    cases he : maps.edmxCapabilities.isEmpty <;> rw [he] at h2 <;> simp at h2
    · rw [← h2,
        companyRefCount_eq_of_params_eq (dget_params_enforcePathItem maps p (addCompanyRefToItem it1)),
        companyRefCount_addRef it1 hwf1]
    · rw [← h2, companyRefCount_addRef it1 hwf1]

/-- Claim C2 amended, witness: the non-system path `/items` of a one-path
document has one `company` reference after one run and two after two. -/
theorem c2_second_run_amended_witness :
    companyRefCount [("parameters", Json.arr [companyRefJson, companyRefJson])] =
      companyRefCount [("parameters", Json.arr [companyRefJson])] + 1 :=
  c2_second_run_amended ⟨[], []⟩ ⟨some [("/items", [])], ⟨none, none⟩⟩ "/items" _ _
    (by
      intro it h
      simp only [lookupPath] at h
      unfold dget at h
      split at h
      · cases h
        exact Or.inl rfl
      · cases h)
    rfl rfl rfl

/-- Claim C3: after one enhancement run of a document whose paths carry no
pre-existing `company` references (and whose `parameters` members, when
present, are arrays), every surviving path not prefix-matching the claim's
system allow-list has exactly one reference to the shared `company`
parameter in its `parameters` array. -/
theorem c3_company_parameter_exactly_once (maps : CapMaps) (s : Spec)
    (hwf : ∀ q it, lookupPath s q = some it → paramsWF it ∧ companyRefCount it = 0)
    (p : String) (it' : PathDict)
    (hout : lookupPath (enhanceOpenapiSpec maps s) p = some it')
    (hsys : claimSystemPath p = false) :
    companyRefCount it' = 1 := by
  have hex : isParamExcludedPath p = false := by rw [← claimSystemPath_eq]; exact hsys
  rw [lookupPath_enhance] at hout
  by_cases hr : shouldRemovePath p = true
  · rw [if_pos hr] at hout
    simp at hout
  · rw [if_neg hr] at hout
    cases hin : lookupPath s p with
    | none => rw [hin] at hout; simp at hout
    | some it0 =>
      rw [hin] at hout
      simp only [Option.map_some', hex, Bool.false_eq_true, if_false] at hout
      obtain ⟨hw0, hc0⟩ := hwf p it0 hin
      cases he : maps.edmxCapabilities.isEmpty <;> rw [he] at hout <;> simp at hout
      · rw [← hout,
          companyRefCount_eq_of_params_eq (dget_params_enforcePathItem maps p (addCompanyRefToItem it0)),
          companyRefCount_addRef it0 hw0, hc0]
      · rw [← hout, companyRefCount_addRef it0 hw0, hc0]

/-- Claim C3, witness: the surviving non-system path `/items` carries
exactly one `company` reference after one run. -/
theorem c3_company_parameter_exactly_once_witness :
    companyRefCount [("parameters", Json.arr [companyRefJson])] = 1 :=
  c3_company_parameter_exactly_once ⟨[], []⟩ ⟨some [("/items", [])], ⟨none, none⟩⟩
    (by
      intro q it h
      simp only [lookupPath] at h
      unfold dget at h
      split at h
      · cases h
        exact ⟨Or.inl rfl, rfl⟩
      · cases h)
    "/items" _ rfl rfl

/-! ### Scoped-path helper lemmas (claim C4) -/

theorem strStartsWith_lit_append_false (lit x q : String)
    (h : listIsPrefixOf (q.data.take lit.data.length) lit.data = false) :
    strStartsWith (lit ++ x) q = false := by
  unfold strStartsWith
  rw [strData_append]
  exact listIsPrefixOf_take_false lit.data q.data x.data h

theorem scoped_not_nav_system (x : String) :
    isNavSystemEndpoint ("/companies({id})/" ++ x) = false := by
  have hd : ("/companies({id})/" ++ x).data =
      ("/companies({id})/" : String).data ++ x.data := rfl
  have hbeq : ∀ q : String,
      listIsPrefixOf ("/companies({id})/" : String).data q.data = false →
      (("/companies({id})/" ++ x) == q) = false :=
    fun q h => beq_false_of_lit_not_prefixOf _ q _ _ hd h
  unfold isNavSystemEndpoint navSystemHeads
  simp only [List.any_cons, List.any_nil, Bool.or_false]
  rw [hbeq "/$batch" (by decide),
    strStartsWith_lit_append_false _ _ ("/$batch" ++ "(") (by decide),
    hbeq "/apicategoryroutes" (by decide),
    strStartsWith_lit_append_false _ _ ("/apicategoryroutes" ++ "(") (by decide),
    hbeq "/entitydefinitions" (by decide),
    strStartsWith_lit_append_false _ _ ("/entitydefinitions" ++ "(") (by decide),
    hbeq "/externalbusinesseventdefinitions" (by decide),
    strStartsWith_lit_append_false _ _ ("/externalbusinesseventdefinitions" ++ "(") (by decide),
    hbeq "/externaleventsubscriptions" (by decide),
    strStartsWith_lit_append_false _ _ ("/externaleventsubscriptions" ++ "(") (by decide),
    hbeq "/subscriptions" (by decide),
    strStartsWith_lit_append_false _ _ ("/subscriptions" ++ "(") (by decide),
    hbeq "/entityDefinitions" (by decide),
    strStartsWith_lit_append_false _ _ ("/entityDefinitions" ++ "(") (by decide),
    hbeq "/companies" (by decide), hbeq "/companies({id})" (by decide)]
  rfl

theorem strStartsWith_scoped (x : String) :
    strStartsWith ("/companies({id})/" ++ x) "/companies({id})/" = true := by
  unfold strStartsWith
  rw [strData_append]
  exact listIsPrefixOf_append_self _ _

theorem strDrop_scoped (x : String) : strDrop ("/companies({id})/" ++ x) 17 = x := by
  unfold strDrop
  rw [strData_append,
    show (17 : Nat) = (("/companies({id})/" : String).data).length from rfl,
    List.drop_left]

theorem splitOnChar_of_not_contains (c : Char) (l : List Char)
    (h : l.contains c = false) : splitOnChar c l = [l] := by
  induction l with
  | nil => rfl
  | cons a as ih =>
    simp only [List.contains_cons, Bool.or_eq_false_iff] at h
    obtain ⟨h1, h2⟩ := h
    unfold splitOnChar
    have h0 : ¬(c = a) := by simpa using h1
    have h1' : ¬(a = c) := fun he => h0 he.symm
    rw [if_neg h1', ih h2]

theorem scopedLevels_single (seg : String) (hs : seg.data.contains '/' = false)
    (hne : ¬(seg = "")) :
    scopedLevels ("/companies({id})/" ++ seg) = [seg] := by
  unfold scopedLevels
  rw [strDrop_scoped]
  unfold strSplitOnChar
  rw [splitOnChar_of_not_contains _ _ hs]
  simp [hne]

/-- Claim C4: path pruning on company-scoped paths.  (a) Any scoped path
with three or more segments after the `/companies({id})/` scope prefix is
absent from the output; (b) any scoped path with exactly two segments after
the prefix whose second segment is not wrapped in parentheses is absent;
(c) any keyed single-member scoped path `/companies({id})/X(...)` present in
the input survives to the output. -/
theorem c4_navigation_path_pruning (maps : CapMaps) (s : Spec) :
    (∀ r : String, 3 ≤ (scopedLevels ("/companies({id})/" ++ r)).length →
      lookupPath (enhanceOpenapiSpec maps s) ("/companies({id})/" ++ r) = none) ∧
    (∀ (r a b : String), scopedLevels ("/companies({id})/" ++ r) = [a, b] →
      parenWrapped b = false →
      lookupPath (enhanceOpenapiSpec maps s) ("/companies({id})/" ++ r) = none) ∧
    (∀ (base key : String) (it : PathDict),
      (base ++ "(" ++ key ++ ")").data.contains '/' = false →
      lookupPath s ("/companies({id})/" ++ (base ++ "(" ++ key ++ ")")) = some it →
      ∃ it', lookupPath (enhanceOpenapiSpec maps s)
        ("/companies({id})/" ++ (base ++ "(" ++ key ++ ")")) = some it') := by
  refine ⟨?_, ?_, ?_⟩
  · intro r hlen
    have hgt : 2 < (scopedLevels ("/companies({id})/" ++ r)).length := hlen
    have hrm : shouldRemovePath ("/companies({id})/" ++ r) = true := by
      simp [shouldRemovePath, scoped_not_nav_system, strStartsWith_scoped, hgt]
    rw [lookupPath_enhance, if_pos hrm]
  · intro r a b hlev hpar
    have hrm : shouldRemovePath ("/companies({id})/" ++ r) = true := by
      simp [shouldRemovePath, scoped_not_nav_system, strStartsWith_scoped, hlev, hpar]
    rw [lookupPath_enhance, if_pos hrm]
  · intro base key it hnos hin
    have hne : ¬((base ++ "(" ++ key ++ ")") = "") := by
      intro he
      have h2 := congrArg (fun s : String => s.data.length) he
      simp [strData_append] at h2
    have hrm : shouldRemovePath ("/companies({id})/" ++ (base ++ "(" ++ key ++ ")")) = false := by
      simp [shouldRemovePath, scoped_not_nav_system, strStartsWith_scoped,
        scopedLevels_single _ hnos hne]
    rw [lookupPath_enhance, if_neg (by simp [hrm]), hin]
    simp only [Option.map_some']
    exact ⟨_, rfl⟩

/-- Claim C4, witness: concrete instances of all three parts — the deep
navigation path `/companies({id})/a/b/c` and the one-level navigation path
`/companies({id})/Items/lines` are absent; the keyed path
`/companies({id})/Items({itemId})` survives. -/
theorem c4_navigation_path_pruning_witness :
    lookupPath
        (enhanceOpenapiSpec ⟨[], []⟩
          ⟨some [("/companies({id})/Items({itemId})", [("get", Json.obj [])])], ⟨none, none⟩⟩)
        ("/companies({id})/" ++ "a/b/c") = none ∧
    lookupPath
        (enhanceOpenapiSpec ⟨[], []⟩
          ⟨some [("/companies({id})/Items({itemId})", [("get", Json.obj [])])], ⟨none, none⟩⟩)
        ("/companies({id})/" ++ "Items/lines") = none ∧
    ∃ it', lookupPath
        (enhanceOpenapiSpec ⟨[], []⟩
          ⟨some [("/companies({id})/Items({itemId})", [("get", Json.obj [])])], ⟨none, none⟩⟩)
        ("/companies({id})/" ++ ("Items" ++ "(" ++ "{itemId}" ++ ")")) = some it' := by
  refine ⟨?_, ?_, ?_⟩
  · exact (c4_navigation_path_pruning ⟨[], []⟩ _).1 "a/b/c" (by decide)
  · exact (c4_navigation_path_pruning ⟨[], []⟩ _).2.1 "Items/lines" "Items" "lines" (by decide)
      (by decide)
  · exact (c4_navigation_path_pruning ⟨[], []⟩ _).2.2 "Items" "{itemId}" [("get", Json.obj [])]
      (by decide) (by rfl)

/-- An annotation whose term contains none of the three restriction markers
leaves the capability record unchanged (the `if`/`elif` chain falls
through). -/
theorem processAnnot_no_marker (caps : Capabilities) (a : EdmAnnot)
    (h1 : strContains (a.term.getD "") "InsertRestrictions" = false)
    (h2 : strContains (a.term.getD "") "UpdateRestrictions" = false)
    (h3 : strContains (a.term.getD "") "DeleteRestrictions" = false) :
    processAnnot caps a = caps := by
  unfold processAnnot
  simp [h1, h2, h3]

/-- Scanning only marker-free annotations leaves any record unchanged. -/
theorem foldl_processAnnot_no_marker (l : List EdmAnnot) (caps : Capabilities)
    (h : ∀ a ∈ l,
      strContains (a.term.getD "") "InsertRestrictions" = false ∧
      strContains (a.term.getD "") "UpdateRestrictions" = false ∧
      strContains (a.term.getD "") "DeleteRestrictions" = false) :
    l.foldl processAnnot caps = caps := by
  induction l generalizing caps with
  | nil => rfl
  | cons a rest ih =>
    simp only [List.foldl_cons]
    obtain ⟨h1, h2, h3⟩ := h a (List.mem_cons_self _ _)
    rw [processAnnot_no_marker caps a h1 h2 h3]
    exact ih caps (fun a' ha' => h a' (List.mem_cons_of_mem _ ha'))

/-- Claim C5: every entity set starts from the all-`true` record; an
annotation whose term contains none of the restriction markers leaves the
record unchanged, so an entity set with no restriction annotations (however
many unrelated annotations it carries) ends at `{true, true, true}`; and
each annotation whose term contains `InsertRestrictions` /
`UpdateRestrictions` / `DeleteRestrictions` (in the extractor's `if`/`elif`
order) overrides only the corresponding flag, taking it from the
case-insensitively compared boolean attribute of the matching property value
and leaving the flag unchanged when that property value is absent. -/
theorem c5_capability_record_extraction :
    (∀ (caps : Capabilities) (a : EdmAnnot),
      strContains (a.term.getD "") "InsertRestrictions" = false →
      strContains (a.term.getD "") "UpdateRestrictions" = false →
      strContains (a.term.getD "") "DeleteRestrictions" = false →
      processAnnot caps a = caps) ∧
    (∀ es : EntitySetElem,
      (∀ a ∈ es.annots,
        strContains (a.term.getD "") "InsertRestrictions" = false ∧
        strContains (a.term.getD "") "UpdateRestrictions" = false ∧
        strContains (a.term.getD "") "DeleteRestrictions" = false) →
      parseEntitySetCaps es = defaultCapabilities) ∧
    (∀ (caps : Capabilities) (a : EdmAnnot),
      (strContains (a.term.getD "") "InsertRestrictions" = true →
        (processAnnot caps a).updatable = caps.updatable ∧
        (processAnnot caps a).deletable = caps.deletable ∧
        (processAnnot caps a).insertable =
          (match findPropValue a "Insertable" with
           | some pv => boolFlagOf pv
           | none => caps.insertable)) ∧
      (strContains (a.term.getD "") "InsertRestrictions" = false →
       strContains (a.term.getD "") "UpdateRestrictions" = true →
        (processAnnot caps a).insertable = caps.insertable ∧
        (processAnnot caps a).deletable = caps.deletable ∧
        (processAnnot caps a).updatable =
          (match findPropValue a "Updatable" with
           | some pv => boolFlagOf pv
           | none => caps.updatable)) ∧
      (strContains (a.term.getD "") "InsertRestrictions" = false →
       strContains (a.term.getD "") "UpdateRestrictions" = false →
       strContains (a.term.getD "") "DeleteRestrictions" = true →
        (processAnnot caps a).insertable = caps.insertable ∧
        (processAnnot caps a).updatable = caps.updatable ∧
        (processAnnot caps a).deletable =
          (match findPropValue a "Deletable" with
           | some pv => boolFlagOf pv
           | none => caps.deletable))) := by
  refine ⟨processAnnot_no_marker,
    fun es h => foldl_processAnnot_no_marker es.annots defaultCapabilities h,
    ?_⟩
  intro caps a
  refine ⟨?_, ?_, ?_⟩
  · intro h1
    simp only [processAnnot, h1, if_true]
    cases hf : findPropValue a "Insertable" <;> simp [hf]
  · intro h1 h2
    simp only [processAnnot, h1, h2, Bool.false_eq_true, if_false, if_true]
    cases hf : findPropValue a "Updatable" <;> simp [hf]
  · intro h1 h2 h3
    simp only [processAnnot, h1, h2, h3, Bool.false_eq_true, if_false, if_true]
    cases hf : findPropValue a "Deletable" <;> simp [hf]

/-- Claim C5, witness: an entity set carrying only an unrelated
`Description` annotation still yields the all-`true` record, an unrelated
annotation leaves a mixed record untouched, and a `DeleteRestrictions`
annotation with `Bool="False"` (mixed case) flips exactly the deletable
flag. -/
theorem c5_capability_record_extraction_witness :
    parseEntitySetCaps ⟨some "Widgets", some "NS.Widget",
        [⟨some "Org.OData.Core.V1.Description", []⟩]⟩ = defaultCapabilities ∧
    processAnnot ⟨true, false, true⟩ ⟨some "Org.OData.Core.V1.Description", []⟩ =
      ⟨true, false, true⟩ ∧
    (processAnnot defaultCapabilities
        ⟨some "Org.OData.Capabilities.V1.DeleteRestrictions",
         [⟨"Deletable", some "False"⟩]⟩).deletable =
      (match findPropValue
          ⟨some "Org.OData.Capabilities.V1.DeleteRestrictions",
           [⟨"Deletable", some "False"⟩]⟩ "Deletable" with
       | some pv => boolFlagOf pv
       | none => defaultCapabilities.deletable) := by
  refine ⟨?_, ?_, ?_⟩
  · refine c5_capability_record_extraction.2.1 _ ?_
    intro a ha
    simp only [List.mem_cons, List.not_mem_nil, or_false] at ha
    subst ha
    exact ⟨by decide, by decide, by decide⟩
  · exact c5_capability_record_extraction.1 _ _ (by decide) (by decide) (by decide)
  · exact ((c5_capability_record_extraction.2.2 defaultCapabilities _).2.2
      (by decide) (by decide) (by decide)).2.2

/-- Claim C6: when the metadata document cannot be parsed the extractor
yields empty mappings and the warning flag, and whenever both capability
mappings are empty the enforcement stage returns the document unchanged. -/
theorem c6_parse_failure_degrades :
    parseEdmxCapabilities none = (⟨[], []⟩, true) ∧
    (∀ (maps : CapMaps) (s : Spec), maps.edmxCapabilities = [] →
      maps.entityTypeCapabilities = [] → enforceEdmxCapabilities maps s = s) := by
  constructor
  · rfl
  · intro maps s h1 h2
    cases hp : s.paths with
    | none => simp [enforceEdmxCapabilities, hp]
    | some ps => simp [enforceEdmxCapabilities, hp, h1]

/-- Claim C6, witness: enforcement with the empty mappings leaves a concrete
one-path document (with a `delete` operation) untouched. -/
theorem c6_parse_failure_degrades_witness :
    parseEdmxCapabilities none = (⟨[], []⟩, true) ∧
    enforceEdmxCapabilities ⟨[], []⟩
        ⟨some [("/items", [("delete", Json.obj [])])], ⟨none, none⟩⟩ =
      ⟨some [("/items", [("delete", Json.obj [])])], ⟨none, none⟩⟩ :=
  ⟨c6_parse_failure_degrades.1, c6_parse_failure_degrades.2 ⟨[], []⟩ _ rfl rfl⟩

/-- Processing a valid entity set stores its record under both the set name
and the resolved type name with plain dict assignment. -/
theorem capMapsStep_valid (maps : CapMaps) (es : EntitySetElem) (n t : String)
    (hn : es.name = some n) (ht : es.entityType = some t)
    (hn' : ¬(n = "")) (ht' : ¬(t = "")) :
    capMapsStep maps es =
      ⟨dset maps.edmxCapabilities n (parseEntitySetCaps es),
       dset maps.entityTypeCapabilities (resolveTypeName t) (parseEntitySetCaps es)⟩ := by
  unfold capMapsStep
  rw [hn, ht]
  simp [hn', ht']

/-- Folding further entity sets none of which (when valid) resolves to the
type name `T` leaves the binding of `T` in the type-keyed mapping
untouched. -/
theorem dget_typeCaps_foldl_of_ne (l : List EntitySetElem) (M : CapMaps) (T : String)
    (h : ∀ e ∈ l, ∀ n' t', e.name = some n' → e.entityType = some t' →
      ¬(n' = "") → ¬(t' = "") → ¬(resolveTypeName t' = T)) :
    dget (l.foldl capMapsStep M).entityTypeCapabilities T =
      dget M.entityTypeCapabilities T := by
  induction l generalizing M with
  | nil => rfl
  | cons e rest ih =>
    simp only [List.foldl_cons]
    rw [ih _ (fun e' he' => h e' (List.mem_cons_of_mem _ he'))]
    cases hen : e.name with
    | none =>
      cases het : e.entityType with
      | none =>
        unfold capMapsStep
        rw [hen, het]
      | some t' =>
        unfold capMapsStep
        rw [hen, het]
    | some n' =>
      cases het : e.entityType with
      | none =>
        unfold capMapsStep
        rw [hen, het]
      | some t' =>
        by_cases hmt : n' = "" ∨ t' = ""
        · unfold capMapsStep
          rw [hen, het]
          simp [hmt]
        · push_neg at hmt
          rw [capMapsStep_valid M e n' t' hen het hmt.1 hmt.2]
          exact dget_dset_ne _ _ _ _
            (fun e2 => h e (List.mem_cons_self _ _) n' t' hen het hmt.1 hmt.2 e2.symm)

/-- Claim C10: when several entity sets resolve to the same entity-type
name, the type-keyed capability mapping ends up holding the record of the
one processed last in document order — whatever earlier sharers stored under
that key is overwritten, and later entity sets of other types do not disturb
the binding. -/
theorem c10_last_entity_set_wins (l1 l2 : List EntitySetElem) (es : EntitySetElem)
    (n t : String) (hn : es.name = some n) (ht : es.entityType = some t)
    (hn' : ¬(n = "")) (ht' : ¬(t = ""))
    (hlater : ∀ e ∈ l2, ∀ n' t', e.name = some n' → e.entityType = some t' →
      ¬(n' = "") → ¬(t' = "") → ¬(resolveTypeName t' = resolveTypeName t)) :
    dget (parseEdmxCapabilities (some ⟨l1 ++ es :: l2⟩)).1.entityTypeCapabilities
        (resolveTypeName t) =
      some (parseEntitySetCaps es) := by
  simp only [parseEdmxCapabilities]
  rw [List.foldl_append, List.foldl_cons,
    dget_typeCaps_foldl_of_ne l2 _ _ hlater,
    capMapsStep_valid _ es n t hn ht hn' ht']
  exact dget_dset_self _ _ _

/-- Claim C10, witness: entity sets `WidgetsA` and `WidgetsB` both of type
`NS.Widget` (the first restricting `Insertable`, the second unrestricted)
followed by an unrelated `Gadgets` set — the `Widget` key holds the
unrestricted record of `WidgetsB`, the last sharer. -/
theorem c10_last_entity_set_wins_witness :
    dget (parseEdmxCapabilities (some ⟨[⟨some "WidgetsA", some "NS.Widget",
          [⟨some "X.InsertRestrictions", [⟨"Insertable", some "false"⟩]⟩]⟩] ++
          ⟨some "WidgetsB", some "NS.Widget", []⟩ ::
          [⟨some "Gadgets", some "NS.Gadget", []⟩]⟩)).1.entityTypeCapabilities
        (resolveTypeName "NS.Widget") =
      some (parseEntitySetCaps ⟨some "WidgetsB", some "NS.Widget", []⟩) ∧
    parseEntitySetCaps (⟨some "WidgetsA", some "NS.Widget",
        [⟨some "X.InsertRestrictions", [⟨"Insertable", some "false"⟩]⟩]⟩ : EntitySetElem) =
      ⟨false, true, true⟩ ∧
    parseEntitySetCaps (⟨some "WidgetsB", some "NS.Widget", []⟩ : EntitySetElem) =
      defaultCapabilities := by
  refine ⟨?_, rfl, rfl⟩
  refine c10_last_entity_set_wins _ _ _ "WidgetsB" "NS.Widget" rfl rfl
    (by decide) (by decide) ?_
  intro e he n' t' hen het hne1 hne2
  simp only [List.mem_cons, List.not_mem_nil, or_false] at he
  subst he
  have het2 : some "NS.Gadget" = some t' := het
  injection het2 with h
  subst h
  decide

/-- Claim C7, counterexample: entity type `Item` is restricted
(deletable = false) and its bare name appears in the path string
`/salesItems`, yet enforcement removes nothing from that path: the override
only fires on the slash-prefixed substring `"/Item"`, which `/salesItems`
does not contain, so the claim's "bare name appears anywhere" reading is
false. -/
theorem c7_override_counterexample :
    strContains "/salesItems" "Item" = true ∧
    capRestricted ⟨true, true, false⟩ = true ∧
    dget [("Item", (⟨true, true, false⟩ : Capabilities))] "Item" =
      some ⟨true, true, false⟩ ∧
    strContains "/salesItems" "/Item" = false ∧
    lookupPath
        (enforceEdmxCapabilities
          ⟨[("Items", ⟨true, true, false⟩)], [("Item", ⟨true, true, false⟩)]⟩
          ⟨some [("/salesItems", [("delete", Json.obj [])])], ⟨none, none⟩⟩)
        "/salesItems" =
      some [("delete", Json.obj [])] :=
  ⟨rfl, rfl, rfl, rfl, rfl⟩

/-- The override loop is the first match of the slash-prefixed restricted
scan, falling back to the previously resolved record. -/
theorem overrideLoop_eq_find (path : String) (cur : Option Capabilities)
    (l : List (String × Capabilities)) :
    overrideLoop path cur l =
      (match l.find? (fun tc => strContains path ("/" ++ tc.1) && capRestricted tc.2) with
       | some tc => some tc.2
       | none => cur) := by
  induction l with
  | nil => rfl
  | cons tc rest ih =>
    cases h : (strContains path ("/" ++ tc.1) && capRestricted tc.2) <;>
      simp [overrideLoop, List.find?, h, ih]

/-- Claim C7, amended: during enforcement of one path, whenever some known
entity type is restricted and its name *preceded by a slash* (`"/" ++ name`)
occurs as a substring of the path string, the first such type in mapping
order decides the enforcement of that path: its record takes precedence over
whatever the three earlier resolution steps produced. -/
theorem c7_override_amended (maps : CapMaps) (path : String) (it : PathDict)
    (t : String) (c : Capabilities)
    (hfind : maps.entityTypeCapabilities.find?
        (fun tc => strContains path ("/" ++ tc.1) && capRestricted tc.2) = some (t, c)) :
    enforcePathItem maps path it = applyCapabilities c it := by
  unfold enforcePathItem
  rw [overrideLoop_eq_find, hfind]

/-- Claim C7 amended, witness: the restricted type `Item` slash-matches
`/companies({id})/Items({id})`, so its record governs the enforcement of
that path (the `delete` operation is removed). -/
theorem c7_override_amended_witness :
    enforcePathItem
        ⟨[("Items", ⟨true, true, false⟩)], [("Item", ⟨true, true, false⟩)]⟩
        "/companies({id})/Items({id})"
        [("get", Json.obj []), ("delete", Json.obj [])] =
      applyCapabilities ⟨true, true, false⟩
        [("get", Json.obj []), ("delete", Json.obj [])] ∧
    applyCapabilities (⟨true, true, false⟩ : Capabilities)
        [("get", Json.obj []), ("delete", Json.obj [])] =
      [("get", Json.obj [])] :=
  ⟨c7_override_amended _ _ _ "Item" ⟨true, true, false⟩ rfl, rfl⟩

/-- Every schema name the unused-variant engine removes ends in `-create`
or `-update`. -/
theorem mem_schemasToRemove_suffix (maps : CapMaps) (ps : List (String × PathDict))
    (sch : List (String × Json)) (k : String) (hk : k ∈ schemasToRemove maps ps sch) :
    strEndsWith k "-create" = true ∨ strEndsWith k "-update" = true := by
  unfold schemasToRemove at hk
  simp only [List.mem_append, List.mem_filter] at hk
  rcases hk with (((hA | hB) | hC) | hD) | hE
  · exact Or.inl hA.1.2
  · exact Or.inr hB.1.2
  · exact Or.inl hC.1.2
  · exact Or.inr hD.1.2
  · have h := hE.2
    unfold forceRemoveCond at h
    simp only [Bool.and_eq_true] at h
    exact (Bool.or_eq_true _ _).mp h.1.2

/-- Claim C9: the schema-pruning stage never removes or alters a schema
whose name ends in neither `-create` nor `-update` — its lookup is the same
before and after the stage. -/
theorem c9_read_only_schemas_preserved (maps : CapMaps) (s : Spec) (k : String)
    (h1 : strEndsWith k "-create" = false) (h2 : strEndsWith k "-update" = false) :
    schemaLookup (removeUnusedSchemaVariants maps s) k = schemaLookup s k := by
  cases hp : s.paths with
  | none =>
    unfold removeUnusedSchemaVariants
    rw [hp]
  | some ps =>
    cases hs : s.components.schemas with
    | none =>
      unfold removeUnusedSchemaVariants
      rw [hp, hs]
    | some sch =>
      have hred : removeUnusedSchemaVariants maps s =
          { s with components := { s.components with
              schemas := some (sch.filter
                (fun kv => !((schemasToRemove maps ps sch).contains kv.1))) } } := by
        unfold removeUnusedSchemaVariants
        rw [hp, hs]
      rw [hred]
      unfold schemaLookup
      rw [hs]
      have hnc : ((schemasToRemove maps ps sch).contains k) = false := by
        cases hc : (schemasToRemove maps ps sch).contains k
        · rfl
        · exfalso
          have hmem : k ∈ schemasToRemove maps ps sch := List.elem_iff.mp hc
          rcases mem_schemasToRemove_suffix _ _ _ _ hmem with h | h
          · rw [h1] at h; cases h
          · rw [h2] at h; cases h
      have hflt := dget_filterKey sch (fun n => !((schemasToRemove maps ps sch).contains n)) k
      rw [hnc] at hflt
      simpa using hflt

/-- Claim C9, witness: the read-only schema `Microsoft.NAV.item` survives the
stage unchanged even while the unused `Microsoft.NAV.item-create` variant is
deleted. -/
theorem c9_read_only_schemas_preserved_witness :
    schemaLookup
        (removeUnusedSchemaVariants ⟨[], []⟩
          ⟨some [("/items", [("get", Json.obj [])])],
           ⟨none, some [("Microsoft.NAV.item", Json.obj [("type", Json.str "object")]),
                        ("Microsoft.NAV.item-create", Json.obj [])]⟩⟩)
        "Microsoft.NAV.item" =
      schemaLookup
        ⟨some [("/items", [("get", Json.obj [])])],
         ⟨none, some [("Microsoft.NAV.item", Json.obj [("type", Json.str "object")]),
                      ("Microsoft.NAV.item-create", Json.obj [])]⟩⟩
        "Microsoft.NAV.item" :=
  c9_read_only_schemas_preserved ⟨[], []⟩ _ "Microsoft.NAV.item" (by decide) (by decide)

/-- A dict lookup succeeds exactly on the stored keys. -/
theorem dget_isSome_iff_mem_keys {α : Type} (l : List (String × α)) (k : String) :
    (dget l k).isSome = true ↔ k ∈ l.map (fun kv => kv.1) := by
  induction l with
  | nil => simp [dget]
  | cons kv rest ih =>
    by_cases h : kv.1 = k
    · subst h; simp [dget]
    · have h' : ¬(k = kv.1) := fun e => h e.symm
      simp [dget, h, h', ih]

/-- Membership in the removal set agrees with the claim's two criteria
(unreferenced, or capability-restricted) for well-formed names. -/
theorem mem_schemasToRemove_iff (maps : CapMaps) (ps : List (String × PathDict))
    (sch : List (String × Json)) (k : String)
    (hk : k ∈ sch.map (fun kv => kv.1))
    (hwf : ∀ kv ∈ sch, wfVariantName kv.1) :
    k ∈ schemasToRemove maps ps sch ↔
      ((strEndsWith k "-create" = true ∧
        (¬(k ∈ schemasUsedByMethod "post" ps) ∨ capRestrictedCreateName maps k = true)) ∨
       (strEndsWith k "-update" = true ∧
        (¬(k ∈ schemasUsedByMethod "patch" ps) ∨ capRestrictedUpdateName maps k = true))) := by
  unfold schemasToRemove
  simp only [List.mem_append, List.mem_filter]
  constructor
  · rintro ((((hA | hB) | hC) | hD) | hE)
    · refine Or.inl ⟨hA.1.2, Or.inl ?_⟩
      intro hmem
      have hc : (schemasUsedByMethod "post" ps).contains k = false := by
        simpa using hA.2
      have h3 : (schemasUsedByMethod "post" ps).contains k = true :=
        List.elem_eq_true_of_mem hmem
      rw [hc] at h3
      cases h3
    · refine Or.inr ⟨hB.1.2, Or.inl ?_⟩
      intro hmem
      have hc : (schemasUsedByMethod "patch" ps).contains k = false := by
        simpa using hB.2
      have h3 : (schemasUsedByMethod "patch" ps).contains k = true :=
        List.elem_eq_true_of_mem hmem
      rw [hc] at h3
      cases h3
    · exact Or.inl ⟨hC.1.2, Or.inr hC.2⟩
    · exact Or.inr ⟨hD.1.2, Or.inr hD.2⟩
    · obtain ⟨hmem, hforce⟩ := hE
      unfold forceRemoveCond at hforce
      simp only [Bool.and_eq_true] at hforce
      obtain ⟨⟨hnav, hor⟩, hmatch⟩ := hforce
      obtain ⟨kv, hkv, hkeq⟩ := List.mem_map.mp hk
      have hwfk := hwf kv hkv
      rw [hkeq] at hwfk
      by_cases hcr : strEndsWith k "-create" = true
      · refine Or.inl ⟨hcr, Or.inr ?_⟩
        unfold capRestrictedCreateName
        rw [← hwfk.1 hnav hcr]
        cases hd : dget maps.entityTypeCapabilities (strDropRight (strDrop k 14) 7) with
        | none => rw [hd] at hmatch; cases hmatch
        | some c =>
          rw [hd] at hmatch
          simp only [hcr, if_true] at hmatch
          exact hmatch
      · have hup : strEndsWith k "-update" = true := by
          rcases (Bool.or_eq_true _ _).mp hor with h | h
          · exact absurd h hcr
          · exact h
        refine Or.inr ⟨hup, Or.inr ?_⟩
        unfold capRestrictedUpdateName
        rw [← hwfk.2 hnav hup]
        cases hd : dget maps.entityTypeCapabilities (strDropRight (strDrop k 14) 7) with
        | none => rw [hd] at hmatch; cases hmatch
        | some c =>
          rw [hd] at hmatch
          simp [hcr, hup] at hmatch
          simp [hmatch]
  · rintro (⟨hcr, hcond⟩ | ⟨hup, hcond⟩)
    · rcases hcond with hnot | hcap
      · refine Or.inl (Or.inl (Or.inl (Or.inl ⟨⟨hk, hcr⟩, ?_⟩)))
        have hc : (schemasUsedByMethod "post" ps).contains k = false := by
          cases hcc : (schemasUsedByMethod "post" ps).contains k
          · rfl
          · exact absurd (List.elem_iff.mp hcc) hnot
        rw [hc]
        rfl
      · exact Or.inl (Or.inl (Or.inr ⟨⟨hk, hcr⟩, hcap⟩))
    · rcases hcond with hnot | hcap
      · refine Or.inl (Or.inl (Or.inl (Or.inr ⟨⟨hk, hup⟩, ?_⟩)))
        have hc : (schemasUsedByMethod "patch" ps).contains k = false := by
          cases hcc : (schemasUsedByMethod "patch" ps).contains k
          · rfl
          · exact absurd (List.elem_iff.mp hcc) hnot
        rw [hc]
        rfl
      · exact Or.inl (Or.inr ⟨⟨hk, hup⟩, hcap⟩)

/-- Claim C8: a schema in the reusable-components map is deleted by the
pruning stage iff it is a `-create` schema that is unreferenced by every
remaining `post` body or whose base entity type is not insertable, or a
`-update` schema that is unreferenced by every remaining `patch` body or
whose base type is not updatable (the latter kinds are removed even while
referenced).  Names are assumed well-formed (suffix only at the end), which
makes the engine's two base-name computations agree. -/
theorem c8_schema_variant_removal_iff (maps : CapMaps) (s : Spec)
    (ps : List (String × PathDict)) (sch : List (String × Json))
    (hp : s.paths = some ps) (hs : s.components.schemas = some sch)
    (hwf : ∀ kv ∈ sch, wfVariantName kv.1)
    (k : String) (hk : (dget sch k).isSome = true) :
    schemaLookup (removeUnusedSchemaVariants maps s) k = none ↔
      ((strEndsWith k "-create" = true ∧
        (¬(k ∈ schemasUsedByMethod "post" ps) ∨ capRestrictedCreateName maps k = true)) ∨
       (strEndsWith k "-update" = true ∧
        (¬(k ∈ schemasUsedByMethod "patch" ps) ∨ capRestrictedUpdateName maps k = true))) := by
  have hkm : k ∈ sch.map (fun kv => kv.1) := (dget_isSome_iff_mem_keys sch k).mp hk
  have hred : removeUnusedSchemaVariants maps s =
      { s with components := { s.components with
          schemas := some (sch.filter
            (fun kv => !((schemasToRemove maps ps sch).contains kv.1))) } } := by
    unfold removeUnusedSchemaVariants
    rw [hp, hs]
  have hlook : schemaLookup (removeUnusedSchemaVariants maps s) k =
      dget (sch.filter (fun kv => !((schemasToRemove maps ps sch).contains kv.1))) k := by
    rw [hred]
    rfl
  rw [hlook, ← mem_schemasToRemove_iff maps ps sch k hkm hwf]
  have hflt := dget_filterKey sch (fun n => !((schemasToRemove maps ps sch).contains n)) k
  cases hc : (schemasToRemove maps ps sch).contains k
  · rw [hc] at hflt
    simp only [Bool.not_false, if_true] at hflt
    rw [hflt]
    constructor
    · intro hnone
      rw [hnone] at hk
      cases hk
    · intro hmem
      have h3 : (schemasToRemove maps ps sch).contains k = true :=
        List.elem_eq_true_of_mem hmem
      rw [hc] at h3
      cases h3
  · rw [hc] at hflt
    simp only [Bool.not_true, Bool.false_eq_true, if_false] at hflt
    rw [hflt]
    constructor
    · intro _
      exact List.elem_iff.mp hc
    · intro _
      rfl

/-- Claim C8, witness: entity type `widget` is not insertable; the
`Microsoft.NAV.widget-create` schema is removed even though the surviving
`post` body still references it (the capability-restricted criterion). -/
theorem c8_schema_variant_removal_iff_witness :
    schemaLookup (removeUnusedSchemaVariants widgetCapMaps widgetSpec)
      "Microsoft.NAV.widget-create" = none :=
  (c8_schema_variant_removal_iff widgetCapMaps widgetSpec widgetPaths widgetSchemas
    rfl rfl
    (by
      intro kv hkv
      simp only [widgetSchemas, List.mem_cons, List.not_mem_nil, or_false] at hkv
      rcases hkv with h | h <;> subst h
      · exact ⟨fun _ h2 => absurd h2 (by decide), fun _ h2 => absurd h2 (by decide)⟩
      · exact ⟨fun _ _ => rfl, fun _ h2 => absurd h2 (by decide)⟩)
    "Microsoft.NAV.widget-create" rfl).mpr
    (Or.inl ⟨rfl, Or.inr rfl⟩)

